import Mathlib

/-!
Shallow embedding of src/val-2.js (greeting-card page script) and proofs
about it.  The script has four independent parts, each embedded below:

* the text-fade sequencer (initTextFading / showNextText): a timer chain
  that toggles the class named active on a list of text items, then hides
  the opening section and reveals the envelope wrapper;
* the envelope open-click handler: class mutations on the envelope and
  card plus the scroll-arming block for the card content region;
* the letter-stagger decorator: a pure string transform wrapping each
  character in a span with a cumulative animation delay;
* the document-wide audio click handler.

Timers are modelled by explicit timestamps: each run is a chronological
trace of (time, state) pairs, one entry per callback that fires, with the
entry recording the state after that callback has run.  Durations are in
milliseconds as in the source.  DOM class state is modelled by explicit
fields (a Bool per tracked class) or by class lists of strings where the
claim is about classList semantics.
-/

namespace ValTwo

/-- State of the DOM regions touched by the sequencer.  One Bool per text
item records whether that item currently carries the class named active;
cursor is the variable currentTextIndex of the source; openingHidden
records the class named hidden on the opening section; envelopeShown
records whether the envelope wrapper has been given display block. -/
structure SeqState where
  actives : List Bool
  cursor : Nat
  openingHidden : Bool
  envelopeShown : Bool
deriving Repr, DecidableEq

/-- textDisplayDuration in the source: each text stays 2500 ms. -/
def textDisplayDuration : Nat := 2500

/-- textTransitionDuration in the source: the fade takes 800 ms. -/
def textTransitionDuration : Nat := 800

/-- The forEach loop at the top of showNextText: remove the class named
active from every text item. -/
def removeAllActive (s : SeqState) : SeqState :=
  { s with actives := s.actives.map (fun _ => false) }

/-- classList.add of the class named active on item i. -/
def activate (s : SeqState) (i : Nat) : SeqState :=
  { s with actives := s.actives.set i true }

/-- The body of showNextText when currentTextIndex < texts.length: the
forEach removes the class named active everywhere, classList.add puts it
on the current item, and currentTextIndex is incremented. -/
def stepState (s : SeqState) : SeqState :=
  { activate (removeAllActive s) s.cursor with cursor := s.cursor + 1 }

/-- openingSection.classList.add of the class named hidden, guarded by
the existence check on the opening section (oe). -/
def hideOpening (oe : Bool) (s : SeqState) : SeqState :=
  if oe then { s with openingHidden := true } else s

/-- envelopeWrapper.style.display = block, guarded by the existence check
on the envelope wrapper (ee). -/
def showEnvelope (ee : Bool) (s : SeqState) : SeqState :=
  if ee then { s with envelopeShown := true } else s

/-- The recursive function showNextText of the source, run to completion.
Parameters: n is texts.length, oe and ee record whether the opening
section and the envelope wrapper exist in the document, t is the time at
which this invocation of showNextText fires, s is the state just before
it runs.  The result is the chronological trace of (time, state) pairs
for this invocation and everything it schedules: the state after the body
of showNextText runs at time t, then recursively the next invocation at
t + textDisplayDuration, or, after the last item, the callback hiding the
opening section at t + textDisplayDuration and the callback revealing the
envelope a further textTransitionDuration later. -/
def showNextText (n : Nat) (oe ee : Bool) (t : Nat) (s : SeqState) :
    List (Nat × SeqState) :=
  if s.cursor < n then
    if s.cursor + 1 < n then
      (t, stepState s) ::
        showNextText n oe ee (t + textDisplayDuration) (stepState s)
    else
      [(t, stepState s),
        (t + textDisplayDuration, hideOpening oe (stepState s)),
        (t + textDisplayDuration + textTransitionDuration,
          showEnvelope ee (hideOpening oe (stepState s)))]
  else
    [(t, removeAllActive s)]
termination_by n - s.cursor
decreasing_by
  simp only [stepState, activate, removeAllActive]
  omega

@[simp] lemma stepState_actives (s : SeqState) :
    (stepState s).actives = (s.actives.map (fun _ => false)).set s.cursor true := rfl

@[simp] lemma stepState_cursor (s : SeqState) :
    (stepState s).cursor = s.cursor + 1 := rfl

@[simp] lemma stepState_openingHidden (s : SeqState) :
    (stepState s).openingHidden = s.openingHidden := rfl

@[simp] lemma stepState_envelopeShown (s : SeqState) :
    (stepState s).envelopeShown = s.envelopeShown := rfl

/-- The sequencer state at page load: no item has the class named active,
currentTextIndex is 0, the opening section is not hidden, the envelope
wrapper is not shown. -/
def initState (n : Nat) : SeqState :=
  { actives := List.replicate n false
    cursor := 0
    openingHidden := false
    envelopeShown := false }

/-- initTextFading of the source.  n is texts.length; oe and ee record
whether the opening section and the envelope wrapper exist.  If n = 0 the
guard at the top shows the envelope, hides the opening section and
returns, all synchronously at time 0; otherwise showNextText is first
scheduled 500 ms after load.  The trace starts with the initial state at
time 0. -/
def initTextFading (n : Nat) (oe ee : Bool) : List (Nat × SeqState) :=
  if n = 0 then
    [(0, initState 0), (0, hideOpening oe (showEnvelope ee (initState 0)))]
  else
    (0, initState n) :: showNextText n oe ee 500 (initState n)

/-- An item is visible when it carries the class named active and the
opening section that contains it is not hidden. -/
def itemVisible (s : SeqState) (i : Nat) : Bool :=
  s.actives.getD i false && !s.openingHidden

/-- The state that holds at wall-clock time t: the state recorded by the
last trace entry whose timestamp is at most t. -/
def stateAt (tr : List (Nat × SeqState)) (t : Nat) : Option SeqState :=
  ((tr.filter (fun e => e.1 ≤ t)).getLast?).map Prod.snd

/-- Checks, over a whole trace, that whenever the envelope has been shown
(the Finished reveal has happened) no item carries the class named
active. -/
def allInactiveAtReveal (tr : List (Nat × SeqState)) : Bool :=
  tr.all (fun e => !e.2.envelopeShown || e.2.actives.all (fun b => !b))

lemma count_true_map_false (l : List Bool) :
    (l.map (fun _ => false)).count true = 0 := by
  simp [List.count_eq_zero, List.mem_map]

lemma count_true_replicate_false (k : Nat) :
    (List.replicate k false).count true = 0 := by
  simp [List.count_eq_zero, List.mem_replicate]

lemma count_true_set_le (l : List Bool) (i : Nat) (h : l.count true = 0) :
    (l.set i true).count true ≤ 1 := by
  induction l generalizing i with
  | nil => simp
  | cons a xs ih =>
    cases a with
    | true => simp [List.count_cons] at h
    | false =>
      have hxs : xs.count true = 0 := by simpa [List.count_cons] using h
      cases i with
      | zero => simp [List.count_cons, hxs]
      | succ j => simpa [List.set, List.count_cons] using ih j hxs

lemma getD_set_true (l : List Bool) (i : Nat) (h : i < l.length) :
    (l.set i true).getD i false = true := by
  induction l generalizing i with
  | nil => simp at h
  | cons a xs ih =>
    cases i with
    | zero => rfl
    | succ j =>
      simp only [List.set, List.getD_cons_succ]
      exact ih j (by simpa using h)

/-- The invariant carried by every trace entry of showNextText (with both
containers present): the item list keeps its length, at most one item is
active at any recorded state, the cursor never exceeds n, and whenever
the envelope has been shown the opening section is hidden and the last
item still carries the class named active. -/
def seqInv (n : Nat) (e : Nat × SeqState) : Prop :=
  e.2.actives.length = n ∧
  e.2.actives.count true ≤ 1 ∧
  e.2.cursor ≤ n ∧
  (e.2.envelopeShown = true →
    e.2.openingHidden = true ∧ e.2.actives.getD (n - 1) false = true)

lemma showNextText_inv (n : Nat) (t : Nat) (s : SeqState) :
    s.actives.length = n → s.cursor ≤ n → s.envelopeShown = false →
    s.openingHidden = false →
    ∀ e ∈ showNextText n true true t s, seqInv n e := by
  refine showNextText.induct n true true
    (motive := fun t s =>
      s.actives.length = n → s.cursor ≤ n → s.envelopeShown = false →
      s.openingHidden = false →
      ∀ e ∈ showNextText n true true t s, seqInv n e)
    ?_ ?_ ?_ t s
  · intro t s h1 h2 IH hlen hcur hE hO e he
    rw [showNextText] at he
    simp only [h1, h2, if_true, List.mem_cons] at he
    rcases he with rfl | he
    · refine ⟨by simpa using hlen, ?_, by simp; omega, by simp [hE]⟩
      simpa using count_true_set_le _ _ (count_true_map_false s.actives)
    · exact IH (by simpa using hlen) (by simp; omega) (by simpa using hE)
        (by simpa using hO) e he
  · intro t s h1 h2 hlen hcur hE hO e he
    have hcu : s.cursor = n - 1 := by omega
    rw [showNextText] at he
    simp only [h1, h2, if_true, if_false, List.mem_cons, List.not_mem_nil,
      or_false] at he
    have hct : (stepState s).actives.count true ≤ 1 := by
      simpa using count_true_set_le _ _ (count_true_map_false s.actives)
    have hln : (stepState s).actives.length = n := by simpa using hlen
    have hgd : (stepState s).actives.getD (n - 1) false = true := by
      rw [stepState_actives, ← hcu]
      exact getD_set_true _ _ (by simp [hlen]; omega)
    rcases he with rfl | rfl | rfl
    · exact ⟨hln, hct, by simp; omega, by simp [hE]⟩
    · exact ⟨by simpa [hideOpening] using hln, by simpa [hideOpening] using hct,
        by simp [hideOpening]; omega, by simp [hideOpening, hE]⟩
    · refine ⟨by simpa [hideOpening, showEnvelope] using hln,
        by simpa [hideOpening, showEnvelope] using hct,
        by simp [hideOpening, showEnvelope]; omega, ?_⟩
      intro _
      refine ⟨by simp [hideOpening, showEnvelope], ?_⟩
      simpa [hideOpening, showEnvelope] using hgd
  · intro t s h1 hlen hcur hE hO e he
    rw [showNextText] at he
    simp only [h1, if_false, List.mem_singleton] at he
    subst he
    refine ⟨by simp [removeAllActive, hlen], ?_, by simp [removeAllActive]; omega,
      by simp [removeAllActive, hE]⟩
    simp only [removeAllActive]
    have := count_true_replicate_false s.actives.length
    simp only [List.map_const'] at *
    omega

lemma showNextText_head_cursor (n : Nat) (oe ee : Bool) (t : Nat) (s : SeqState) :
    (showNextText n oe ee t s).head?.map (fun e => e.2.cursor) =
      some (if s.cursor < n then s.cursor + 1 else s.cursor) := by
  rw [showNextText]
  by_cases h1 : s.cursor < n
  · by_cases h2 : s.cursor + 1 < n <;> simp [h1, h2]
  · simp [h1, removeAllActive]

lemma showNextText_chain (n : Nat) (t : Nat) (s : SeqState) :
    List.Chain' (fun a b : Nat × SeqState =>
      b.2.cursor = a.2.cursor + 1 ∨ b.2.cursor = a.2.cursor)
      (showNextText n true true t s) := by
  refine showNextText.induct n true true
    (motive := fun t s =>
      List.Chain' (fun a b : Nat × SeqState =>
        b.2.cursor = a.2.cursor + 1 ∨ b.2.cursor = a.2.cursor)
        (showNextText n true true t s))
    ?_ ?_ ?_ t s
  · intro t s h1 h2 IH
    rw [showNextText]
    simp only [h1, h2, if_true]
    refine List.chain'_cons'.mpr ⟨?_, IH⟩
    intro y hy
    have hh := showNextText_head_cursor n true true (t + textDisplayDuration)
      (stepState s)
    rw [Option.mem_def] at hy
    rw [hy] at hh
    simp only [Option.map_some', Option.some_inj, stepState_cursor, h2,
      if_true] at hh
    left
    simpa using hh
  · intro t s h1 h2
    rw [showNextText]
    simp [h1, h2, List.chain'_cons, hideOpening, showEnvelope]
  · intro t s h1
    rw [showNextText]
    simp [h1]

lemma initTextFading_one : initTextFading 1 true true =
    [(0, ⟨[false], 0, false, false⟩), (500, ⟨[true], 1, false, false⟩),
      (3000, ⟨[true], 1, true, false⟩), (3800, ⟨[true], 1, true, true⟩)] := by
  simp [initTextFading, showNextText, initState, stepState, activate,
    removeAllActive, hideOpening, showEnvelope, textDisplayDuration,
    textTransitionDuration]

lemma initTextFading_three : initTextFading 3 true true =
    [(0, ⟨[false, false, false], 0, false, false⟩),
      (500, ⟨[true, false, false], 1, false, false⟩),
      (3000, ⟨[false, true, false], 2, false, false⟩),
      (5500, ⟨[false, false, true], 3, false, false⟩),
      (8000, ⟨[false, false, true], 3, true, false⟩),
      (8800, ⟨[false, false, true], 3, true, true⟩)] := by
  simp [initTextFading, showNextText, initState, stepState, activate,
    removeAllActive, hideOpening, showEnvelope, textDisplayDuration,
    textTransitionDuration]

/-- C1 counterexample: the claim says every item has been deactivated
before the Finished-state reveal, for every number of items.  For a run
with one text item this is false: at the trace entry where the envelope
is revealed (t = 3800) the single item still carries the class named
active, because showNextText only strips the class at the start of a
further invocation that never happens after the last item. -/
theorem c1_zero_active_fails :
    allInactiveAtReveal (initTextFading 1 true true) = false := by
  rw [initTextFading_one]
  decide

/-- C1, amended: during a full run of the sequencer at most one item
carries the class named active at any recorded state, and once the
envelope reveal has happened no item is visible, because the opening
section has been hidden.  The last item, however, is never deactivated:
whenever the envelope has been shown, item n - 1 still carries the class
named active (for n at least 1). -/
theorem c1_active_invariant (n : Nat) (e : Nat × SeqState)
    (he : e ∈ initTextFading n true true) :
    e.2.actives.count true ≤ 1 ∧
    (e.2.envelopeShown = true →
      (∀ i, itemVisible e.2 i = false) ∧
      (1 ≤ n → e.2.actives.getD (n - 1) false = true)) := by
  by_cases h : n = 0
  · subst h
    have hts : initTextFading 0 true true =
        [(0, ⟨[], 0, false, false⟩), (0, ⟨[], 0, true, true⟩)] := by decide
    rw [hts] at he
    rcases List.mem_cons.mp he with rfl | he
    · exact ⟨by decide, by simp⟩
    · rcases List.mem_singleton.mp he with rfl
      refine ⟨by decide, fun _ => ⟨fun i => by simp [itemVisible],
        fun hn => absurd hn (by decide)⟩⟩
  · rw [initTextFading, if_neg h] at he
    rcases List.mem_cons.mp he with rfl | he
    · exact ⟨by simp [initState, count_true_replicate_false],
        by simp [initState]⟩
    · obtain ⟨hlen, hcnt, hcur, himp⟩ :=
        showNextText_inv n 500 (initState n) (by simp [initState])
          (by simp [initState]) rfl rfl e he
      refine ⟨hcnt, fun hE => ?_⟩
      obtain ⟨hOp, hLast⟩ := himp hE
      exact ⟨fun i => by simp [itemVisible, hOp], fun _ => hLast⟩

/-- C1 witness: the amended invariant applied to the reveal entry of the
one-item run. -/
theorem c1_active_invariant_witness :
    (SeqState.mk [true] 1 true true).actives.count true ≤ 1 ∧
    ((SeqState.mk [true] 1 true true).envelopeShown = true →
      (∀ i, itemVisible (SeqState.mk [true] 1 true true) i = false) ∧
      (1 ≤ 1 → (SeqState.mk [true] 1 true true).actives.getD (1 - 1) false
        = true)) :=
  c1_active_invariant 1 (3800, SeqState.mk [true] 1 true true)
    (by rw [initTextFading_one]; decide)

/-- C2: with three items, dwell 2500, transition 800 and startup delay
500, the run makes item A active at t = 500, item B at t = 3000, item C
at t = 5500 (and not earlier, as the state just before each of those
instants shows), hides the opening section, and with it every item, at
t = 8000, and reveals the envelope wrapper at t = 8800. -/
theorem c2_three_item_schedule :
    (stateAt (initTextFading 3 true true) 499).map SeqState.actives =
      some [false, false, false] ∧
    (stateAt (initTextFading 3 true true) 500).map SeqState.actives =
      some [true, false, false] ∧
    (stateAt (initTextFading 3 true true) 2999).map SeqState.actives =
      some [true, false, false] ∧
    (stateAt (initTextFading 3 true true) 3000).map SeqState.actives =
      some [false, true, false] ∧
    (stateAt (initTextFading 3 true true) 5499).map SeqState.actives =
      some [false, true, false] ∧
    (stateAt (initTextFading 3 true true) 5500).map SeqState.actives =
      some [false, false, true] ∧
    (stateAt (initTextFading 3 true true) 7999).map SeqState.openingHidden =
      some false ∧
    (stateAt (initTextFading 3 true true) 8000).map SeqState.openingHidden =
      some true ∧
    (stateAt (initTextFading 3 true true) 8000).map
      (fun s => (List.range 3).map (itemVisible s)) =
      some [false, false, false] ∧
    (stateAt (initTextFading 3 true true) 8799).map SeqState.envelopeShown =
      some false ∧
    (stateAt (initTextFading 3 true true) 8800).map SeqState.envelopeShown =
      some true := by
  rw [initTextFading_three]
  decide

/-- C4: with an empty item sequence the state machine is skipped: the
trace holds only the load state and, still at time 0 with no timer
delay and no intermediate state, the state in which the envelope wrapper
has been shown and the opening section hidden (each guarded by its
existence flag), after which initTextFading returns. -/
theorem c4_empty_sequence (oe ee : Bool) :
    initTextFading 0 oe ee =
      [(0, ⟨[], 0, false, false⟩), (0, ⟨[], 0, oe, ee⟩)] := by
  cases oe <;> cases ee <;> decide

/-- C9: the cursor (currentTextIndex) of the sequencer starts at 0, and
along the whole run it either stays unchanged or is advanced by exactly
1 from one trace entry to the next (it is advanced at each showNextText
step and untouched by the two closing callbacks), and it never exceeds
the number n of text items. -/
theorem c9_cursor_monotone_bounded (n : Nat) :
    ((initTextFading n true true).head?.map (fun e => e.2.cursor)) = some 0 ∧
    (∀ e ∈ initTextFading n true true, e.2.cursor ≤ n) ∧
    List.Chain' (fun a b : Nat × SeqState =>
      b.2.cursor = a.2.cursor + 1 ∨ b.2.cursor = a.2.cursor)
      (initTextFading n true true) := by
  by_cases h : n = 0
  · subst h
    have hts : initTextFading 0 true true =
        [(0, ⟨[], 0, false, false⟩), (0, ⟨[], 0, true, true⟩)] := by decide
    rw [hts]
    exact ⟨rfl, by decide, by simp⟩
  · have h0 : 0 < n := Nat.pos_of_ne_zero h
    refine ⟨by simp [initTextFading, h, initState], ?_, ?_⟩
    · intro e he
      rw [initTextFading, if_neg h] at he
      rcases List.mem_cons.mp he with rfl | he
      · simp [initState]
      · exact (showNextText_inv n 500 (initState n) (by simp [initState])
          (by simp [initState]) rfl rfl e he).2.2.1
    · rw [initTextFading, if_neg h]
      refine List.chain'_cons'.mpr
        ⟨?_, showNextText_chain n 500 (initState n)⟩
      intro y hy
      have hh := showNextText_head_cursor n true true 500 (initState n)
      rw [Option.mem_def] at hy
      rw [hy] at hh
      simp only [Option.map_some', Option.some_inj] at hh
      left
      simp only [initState] at hh ⊢
      simpa [h0] using hh

/-!
Letter-stagger decorator: the forEach over the card-text paragraphs at
the bottom of src/val-2.js.  The innerHTML string is rebuilt as a list of
pieces: a span piece records the wrapped character (with the space
already replaced by the non-breaking-space entity) together with the
animation delay, in seconds, written into its style attribute; a br
piece stands for the line-break marker written between lines.
-/

/-- One piece of the rebuilt innerHTML. -/
inductive Piece where
  | br : Piece
  | span (delay : ℚ) (content : String) : Piece
deriving Repr, DecidableEq

/-- The replace call removing every carriage-return character. -/
def stripCR (l : List Char) : List Char := l.filter (fun c => c ≠ '\r')

/-- The trim call: whitespace dropped from both ends. -/
def trimChars (l : List Char) : List Char :=
  ((l.dropWhile Char.isWhitespace).reverse.dropWhile Char.isWhitespace).reverse

/-- The end of a line-break marker after the optional slash: the closing
angle bracket must come directly. -/
def matchGtHead : List Char → Option (List Char)
  | [] => none
  | a :: as => if a = '>' then some as else none

/-- After the letters b and r of a line-break marker: zero or more
whitespace characters, then an optional slash that must be followed
directly by the closing angle bracket.  Returns the rest of the input
when the marker matches. -/
def matchBrTail : List Char → Option (List Char)
  | [] => none
  | c :: rest =>
    if c.isWhitespace then matchBrTail rest
    else if c = '/' then matchGtHead rest
    else if c = '>' then some rest
    else none

/-- One match of the line-break marker at the head of the input: an
opening angle bracket, the letters b and r in either case, then the
tail of the marker.  Returns the rest of the input on a match. -/
def matchBr : List Char → Option (List Char)
  | c0 :: b :: r :: rest =>
    if c0 = '<' ∧ (b = 'b' ∨ b = 'B') ∧ (r = 'r' ∨ r = 'R') then
      matchBrTail rest
    else none
  | _ => none

lemma matchGtHead_length : ∀ l res, matchGtHead l = some res →
    res.length + 1 = l.length := by
  intro l res h
  cases l with
  | nil => cases h
  | cons a as =>
    rw [matchGtHead] at h
    split_ifs at h
    · injection h with h2
      subst h2
      simp

lemma matchBrTail_length : ∀ l res, matchBrTail l = some res →
    res.length ≤ l.length := by
  intro l
  induction l with
  | nil => intro res h; cases h
  | cons c rest ih =>
    intro res h
    rw [matchBrTail] at h
    split_ifs at h with hw hsl hgt
    · exact (ih res h).trans (by simp)
    · have := matchGtHead_length rest res h
      simp only [List.length_cons]
      omega
    · injection h with h2
      subst h2
      simp

lemma matchBr_length : ∀ l res, matchBr l = some res →
    res.length < l.length := by
  intro l res h
  cases l with
  | nil => cases h
  | cons c0 l1 =>
    cases l1 with
    | nil => cases h
    | cons b l2 =>
      cases l2 with
      | nil => cases h
      | cons r rest =>
        rw [matchBr] at h
        split_ifs at h
        · have := matchBrTail_length rest res h
          simp only [List.length_cons]
          omega

/-- The split call dividing the input on every line-break marker: the
same left-to-right scan the regex split performs.  Splitting the empty
string gives one empty line, as the library split does. -/
def splitBr : List Char → List (List Char)
  | [] => [[]]
  | c :: rest =>
    match hm : matchBr (c :: rest) with
    | some rem => [] :: splitBr rem
    | none =>
      match splitBr rest with
      | [] => [[c]]
      | l :: ls => (c :: l) :: ls
termination_by l => l.length
decreasing_by
  · exact matchBr_length _ _ hm
  · simp

/-- The inner forEach over the characters of one line: each character is
wrapped in a span carrying the running delay, a space becomes the
non-breaking-space entity, and the delay grows by 0.05 per character.
Returns the pieces of the line together with the delay reached after it,
which the source keeps in the mutable variable named delay. -/
def buildChars (delay : ℚ) : List Char → List Piece × ℚ
  | [] => ([], delay)
  | c :: cs =>
    (Piece.span delay (if c = ' ' then "&nbsp;" else String.singleton c) ::
        (buildChars (delay + 0.05) cs).1,
      (buildChars (delay + 0.05) cs).2)

/-- The outer forEach over the lines: the pieces of each line in order,
with a br piece after every line except the last, the delay threaded
through without being reset. -/
def buildLines (delay : ℚ) : List (List Char) → List Piece
  | [] => []
  | l :: ls =>
    match ls with
    | [] => (buildChars delay l).1
    | _ :: _ =>
      (buildChars delay l).1 ++
        Piece.br :: buildLines (buildChars delay l).2 ls

/-- The whole decorator body for one paragraph: strip carriage returns,
trim, split on the line-break markers, then rebuild the content with one
span per character and br pieces between lines, the delay starting at 0. -/
def letterStagger (input : String) : List Piece :=
  buildLines 0 (splitBr (trimChars (stripCR input.data)))

/-- The animation delays of the span pieces, in order of appearance. -/
def delays (ps : List Piece) : List ℚ :=
  ps.filterMap (fun p =>
    match p with
    | Piece.br => none
    | Piece.span d _ => some d)

lemma delays_buildChars (l : List Char) : ∀ d : ℚ,
    delays (buildChars d l).1 =
      (List.range l.length).map (fun k : Nat => d + (k : ℚ) * 0.05) ∧
    (buildChars d l).2 = d + (l.length : ℚ) * 0.05 := by
  induction l with
  | nil => intro d; simp [buildChars, delays]
  | cons c cs ih =>
    intro d
    obtain ⟨ih1, ih2⟩ := ih (d + 0.05)
    constructor
    · rw [buildChars]
      simp only [delays, List.filterMap_cons] at ih1 ⊢
      rw [List.length_cons, List.range_succ_eq_map, List.map_cons,
        List.map_map]
      congr 1
      · push_cast
        ring
      · rw [ih1]
        refine List.map_congr_left ?_
        intro k _
        simp only [Function.comp_apply, Nat.succ_eq_add_one]
        push_cast
        ring
    · rw [buildChars]
      simp only []
      rw [ih2, List.length_cons]
      push_cast
      ring

lemma delays_buildLines (ls : List (List Char)) : ∀ d : ℚ,
    delays (buildLines d ls) =
      (List.range ((ls.map List.length).sum)).map (fun k : Nat => d + (k : ℚ) * 0.05) := by
  induction ls with
  | nil => intro d; simp [buildLines, delays]
  | cons l ls ih =>
    intro d
    cases ls with
    | nil =>
      rw [buildLines]
      simpa using (delays_buildChars l d).1
    | cons l2 ls2 =>
      rw [buildLines]
      simp only [delays, List.filterMap_append, List.filterMap_cons]
      have h1 := (delays_buildChars l d).1
      have h2 := (delays_buildChars l d).2
      simp only [delays] at h1
      rw [h1, h2]
      have h3 := ih (d + (l.length : ℚ) * 0.05)
      simp only [delays] at h3
      rw [h3]
      have hsum : (List.map List.length (l :: l2 :: ls2)).sum =
          l.length + (List.map List.length (l2 :: ls2)).sum := by
        rw [List.map_cons, List.sum_cons]
      rw [hsum, List.range_add, List.map_append, List.map_map]
      congr 1
      refine List.map_congr_left ?_
      intro k _
      simp only [Function.comp_apply]
      push_cast
      ring

/-- C3: the letter-stagger decorator strips carriage returns, splits on
the line-break markers, wraps each character in a span whose animation
delay is 0.05 seconds times the position of the character counted
cumulatively across the whole block (the delays of the produced spans,
in order, are 0, 0.05, 0.10, and so on, for every input string — not
reset at line breaks), replaces a literal space by the
non-breaking-space entity, and rejoins the lines with a br marker.  In
particular the input Hi-br-Yo yields spans H and i with delays 0 and
0.05, a br, then spans Y and o with delays 0.10 and 0.15.  Delays are
modelled as exact rationals. -/
theorem c3_letter_stagger :
    (letterStagger "Hi<br>Yo" =
      [Piece.span 0 "H", Piece.span 0.05 "i", Piece.br,
        Piece.span 0.1 "Y", Piece.span 0.15 "o"]) ∧
    (letterStagger "a b" =
      [Piece.span 0 "a", Piece.span 0.05 "&nbsp;", Piece.span 0.1 "b"]) ∧
    (∀ input : String,
      delays (letterStagger input) =
        (List.range (delays (letterStagger input)).length).map
          (fun k : Nat => (k : ℚ) * 0.05)) := by
  refine ⟨?_, ?_, ?_⟩
  · simp [letterStagger, stripCR, trimChars, splitBr, matchBr, matchBrTail,
      matchGtHead, buildLines, buildChars, String.singleton, delays]
    norm_num
    decide
  · simp [letterStagger, stripCR, trimChars, splitBr, matchBr, matchBrTail,
      matchGtHead, buildLines, buildChars, String.singleton, delays]
    norm_num
    decide
  · intro input
    rw [letterStagger,
      delays_buildLines (splitBr (trimChars (stripCR input.data))) 0,
      List.length_map, List.length_range]
    refine List.map_congr_left ?_
    intro k _
    ring

/-!
Envelope open-click handler: the classList mutations on the envelope and
the nested card, the scroll-arming block over the card content region,
and the document-wide audio click handler.
-/

/-- classList.add: appends the class when absent, otherwise no change. -/
def classAdd (cs : List String) (c : String) : List String :=
  if c ∈ cs then cs else cs ++ [c]

/-- classList.remove: removes every occurrence of the class. -/
def classRemove (cs : List String) (c : String) : List String :=
  cs.filter (fun x => x ≠ c)

/-- The class state the click handler touches: the class lists of the
envelope element and of the nested card element. -/
structure EnvDom where
  envelopeClasses : List String
  cardClasses : List String
deriving Repr, DecidableEq

/-- The class mutations of the click handler on the open-envelope
control: remove tossing and add open on the envelope, add open on the
card. -/
def openEnvelopeClick (dom : EnvDom) : EnvDom :=
  { envelopeClasses := classAdd (classRemove dom.envelopeClasses "tossing") "open"
    cardClasses := classAdd dom.cardClasses "open" }

lemma classAdd_mem_self (cs : List String) (c : String) : c ∈ classAdd cs c := by
  rw [classAdd]
  split_ifs with h
  · exact h
  · simp

lemma classAdd_of_mem (cs : List String) (c : String) (h : c ∈ cs) :
    classAdd cs c = cs := by
  rw [classAdd, if_pos h]

lemma classRemove_of_not_mem (cs : List String) (c : String) (h : c ∉ cs) :
    classRemove cs c = cs := by
  rw [classRemove]
  refine List.filter_eq_self.mpr ?_
  intro a ha
  simp only [ne_eq, decide_eq_true_eq]
  intro hac
  exact h (hac ▸ ha)

lemma not_mem_classRemove (cs : List String) (c : String) :
    c ∉ classRemove cs c := by
  rw [classRemove]
  intro h
  simpa using (List.mem_filter.mp h).2

lemma tossing_not_mem_after (cs : List String) :
    "tossing" ∉ classAdd (classRemove cs "tossing") "open" := by
  rw [classAdd]
  split_ifs with h
  · exact not_mem_classRemove cs "tossing"
  · intro hm
    rcases List.mem_append.mp hm with hm | hm
    · exact not_mem_classRemove cs "tossing" hm
    · simp at hm

/-- C6: a second (or any further) click of the open-envelope control does
not revert the class state: the handler only removes tossing and adds
open, both idempotent, with no toggle-off path, so the class state after
two clicks equals the state after one; moreover after any click the
envelope carries open and not tossing, and the card carries open. -/
theorem c6_click_idempotent (dom : EnvDom) :
    openEnvelopeClick (openEnvelopeClick dom) = openEnvelopeClick dom ∧
    "open" ∈ (openEnvelopeClick dom).envelopeClasses ∧
    "tossing" ∉ (openEnvelopeClick dom).envelopeClasses ∧
    "open" ∈ (openEnvelopeClick dom).cardClasses := by
  refine ⟨?_, classAdd_mem_self _ _, tossing_not_mem_after _,
    classAdd_mem_self _ _⟩
  rw [openEnvelopeClick, openEnvelopeClick]
  congr 1
  · rw [classRemove_of_not_mem _ _ (tossing_not_mem_after dom.envelopeClasses)]
    exact classAdd_of_mem _ _ (classAdd_mem_self _ _)
  · exact classAdd_of_mem _ _ (classAdd_mem_self _ _)

/-- The geometry read off the card content region at a scroll event. -/
structure ScrollMetrics where
  scrollHeight : Int
  scrollTop : Int
  clientHeight : Int
deriving Repr, DecidableEq

/-- The bottom check of the scroll callback, with the 5 pixel threshold
for rounding. -/
def isAtBottom (m : ScrollMetrics) : Bool :=
  m.scrollHeight - m.scrollTop ≤ m.clientHeight + 5

/-- The arming delay: the scroll callback is attached only 1000 ms after
the click, to let the card animation settle. -/
def scrollArmDelay : Nat := 1000

/-- The delay between the bottom check passing and the smooth scroll back
to the top. -/
def scrollBackDelay : Nat := 1000

/-- One observed scroll event: the callback runs only when the listener
is attached; when the bottom check passes it schedules the smooth scroll
to top scrollBackDelay later. -/
def scrollCallback (attached : Bool) (t : Nat) (m : ScrollMetrics) :
    Option Nat :=
  if attached && isAtBottom m then some (t + scrollBackDelay) else none

/-- The scroll-to-top times scheduled after a click at clickTime: every
scroll event (time, metrics) is processed; an event occurring before the
arming time is not observed, because the listener is attached only
scrollArmDelay after the click. -/
def scrollToTopSchedule (clickTime : Nat)
    (events : List (Nat × ScrollMetrics)) : List Nat :=
  events.filterMap (fun e =>
    scrollCallback (decide (clickTime + scrollArmDelay ≤ e.1)) e.1 e.2)

/-- C5: a smooth scroll back to the top is scheduled exactly when some
scroll event satisfies the bottom check (scrollHeight - scrollTop at most
clientHeight + 5) and occurs no earlier than 1000 ms after the click (the
arming delay); the scheduled scroll runs a further 1000 ms after that
event. -/
theorem c5_scroll_auto_return (clickTime s : Nat)
    (events : List (Nat × ScrollMetrics)) :
    s ∈ scrollToTopSchedule clickTime events ↔
      ∃ e ∈ events, clickTime + 1000 ≤ e.1 ∧
        e.2.scrollHeight - e.2.scrollTop ≤ e.2.clientHeight + 5 ∧
        s = e.1 + 1000 := by
  rw [scrollToTopSchedule, List.mem_filterMap]
  constructor
  · rintro ⟨e, he, hc⟩
    rw [scrollCallback] at hc
    split_ifs at hc with hb
    injection hc with hc
    rw [Bool.and_eq_true, decide_eq_true_eq] at hb
    obtain ⟨harm, hbot⟩ := hb
    rw [isAtBottom, decide_eq_true_eq] at hbot
    exact ⟨e, he, harm, hbot, hc.symm⟩
  · rintro ⟨e, he, harm, hbot, rfl⟩
    refine ⟨e, he, ?_⟩
    rw [scrollCallback, if_pos]
    · rfl
    · rw [Bool.and_eq_true, decide_eq_true_eq]
      exact ⟨harm, by rw [isAtBottom, decide_eq_true_eq]; exact hbot⟩

/-- A platform-level failure: calling a method on a null element. -/
inductive JsError where
  | typeErrorNullDeref : JsError
deriving Repr, DecidableEq

/-- What the scroll-arming block did. -/
inductive ArmOutcome where
  | armed : ArmOutcome
  | skipped : ArmOutcome
deriving Repr, DecidableEq

/-- The scroll-arming block of the click handler.  The jQuery find on the
card content region yields undefined when no element matches, modelled
by none; the block is wrapped in an existence check, so a missing
element makes the whole block skip rather than raise. -/
def scrollArm : Option Unit → Except JsError ArmOutcome
  | some _ => Except.ok ArmOutcome.armed
  | none => Except.ok ArmOutcome.skipped

/-- The text-decorator pass: querySelectorAll yields the possibly empty
list of card-text paragraphs and the forEach rewrites each one; absent
elements mean an empty collection, never a null dereference. -/
def decorateAll (paragraphs : List String) :
    Except JsError (List (List Piece)) :=
  Except.ok (paragraphs.map letterStagger)

/-- C7 counterexample: the claim says the scroll-arming code errors at
the platform level when the card-content element is absent.  It does
not: the block is guarded by an existence check, so with the element
missing it returns the skipped outcome and no error is possible. -/
theorem c7_missing_content_no_error :
    scrollArm none = Except.ok ArmOutcome.skipped ∧
    ¬ ∃ err, scrollArm none = Except.error err := by
  refine ⟨rfl, ?_⟩
  rintro ⟨err, h⟩
  simp [scrollArm] at h

/-- C7, amended: neither the scroll-arming path nor the text-decorator
path can fail on a missing element: the scroll-arming block is guarded
by an existence check and skips silently when the card-content element
is absent, and the text-decorator iterates over a possibly empty
collection. -/
theorem c7_paths_never_error (c : Option Unit) (ps : List String) :
    (scrollArm c).isOk = true ∧
    scrollArm none = Except.ok ArmOutcome.skipped ∧
    (decorateAll ps).isOk = true ∧
    decorateAll [] = Except.ok [] := by
  refine ⟨?_, rfl, rfl, rfl⟩
  cases c <;> rfl

/-- A command issued to the media element. -/
inductive AudioCmd where
  | play (id : String) : AudioCmd
deriving Repr, DecidableEq

/-- The body of the document-wide click listener: it always issues the
play call on the element with id bgm; it consults no state. -/
def docClickHandler : AudioCmd := AudioCmd.play "bgm"

/-- The play calls issued over a sequence of n document clicks. -/
def docClickRun (n : Nat) : List AudioCmd :=
  List.replicate n docClickHandler

/-- C8: every document-wide click, not only the first, re-issues the play
call on the background-music element: one more click appends one more
play call, the number of play calls equals the number of clicks, and
every issued command is that same play call, there being no state
tracking and no guard in the handler. -/
theorem c8_every_click_plays (n : Nat) :
    docClickRun (n + 1) = docClickRun n ++ [AudioCmd.play "bgm"] ∧
    (docClickRun n).length = n ∧
    ∀ c ∈ docClickRun n, c = AudioCmd.play "bgm" := by
  refine ⟨?_, by simp [docClickRun], ?_⟩
  · rw [docClickRun, docClickRun, List.replicate_succ']
    rfl
  · intro c hc
    exact List.eq_of_mem_replicate hc

/-- The audio click handler body: getElementById with id bgm followed
directly by the play call, with no existence check.  getElementById
yields null when the element is absent; calling play on null raises a
platform TypeError, modelled as the error result. -/
def bgmClick : Option Unit → Except JsError AudioCmd
  | some _ => Except.ok (AudioCmd.play "bgm")
  | none => Except.error JsError.typeErrorNullDeref

/-- C10: the audio click handler checks nothing before use: with no
element of id bgm in the document a click dereferences a null element
and raises a platform-level error, and with the element present the
play call is issued; the handler is safe only under the precondition
that the element exists. -/
theorem c10_bgm_missing_errors :
    bgmClick none = Except.error JsError.typeErrorNullDeref ∧
    bgmClick (some ()) = Except.ok (AudioCmd.play "bgm") :=
  ⟨rfl, rfl⟩

end ValTwo
